import Mathlib

/-!
Verification of the GCS video-transcription pipeline (`src/main.py`,
function `transcribe_video_from_gcs`).

The development shallowly embeds the pure decision logic of the source:
  * path resolution (lines 56-61): `os.path.basename`, `os.path.splitext`,
    `os.path.join` restricted to the shapes the source uses;
  * transcript reconstruction from recognition results (lines 126-148);
  * the logging decisions around reconstruction (lines 121-156);
  * the orchestrator control flow (validation, filters, stage sequencing,
    try/finally cleanup) as a pure function over an oracle `World` that
    fixes the outcome of each external collaborator call.
-/

/-! ## String helpers

`String` in Lean is a list of characters; we state emptiness, ordering and
concatenation facts through `String.data` so that everything computes and
is easy to reason about. -/

/-- Python string truthiness check `not s` is emptiness of the text. -/
def strIsEmpty (s : String) : Bool := s.data.isEmpty

/-- Concatenation of a list of strings, in order. -/
def strConcat : List String → String
  | [] => ""
  | s :: rest => s ++ strConcat rest

/-- Python `s.startswith(p)`: `p` is a prefix of the character sequence of `s`. -/
def strStartsWith (s p : String) : Bool := p.data.isPrefixOf s.data

/-- Whether a path string begins with the separator character. -/
def strStartsWithSlash (s : String) : Bool :=
  match s.data with
  | [] => false
  | c :: _ => c == '/'

/-- Whether a path string ends with the separator character. -/
def strEndsWithSlash (s : String) : Bool :=
  match s.data.getLast? with
  | none => false
  | some c => c == '/'

theorem strData_append (a b : String) : (a ++ b).data = a.data ++ b.data := by
  cases a; cases b; rfl

theorem strAppend_assoc (a b c : String) : a ++ b ++ c = a ++ (b ++ c) := by
  cases a; cases b; cases c
  exact congrArg String.mk (List.append_assoc _ _ _)

theorem strAppend_empty (s : String) : s ++ "" = s := by
  cases s
  exact congrArg String.mk (List.append_nil _)

theorem strEmpty_append (s : String) : "" ++ s = s := by
  cases s; rfl

/-! ## Path resolver (src/main.py lines 56-61)

```python
base_file_name = os.path.splitext(os.path.basename(file_name))[0]
local_video_path = os.path.join(TEMP_DIR, os.path.basename(file_name))
local_audio_path = os.path.join(TEMP_DIR, f"{base_file_name}.flac")
gcs_audio_path = f"audio/{base_file_name}.flac"
gcs_transcript_path = f"transcripts/{base_file_name}.txt"
gcs_analysis_path = f"analysis/{base_file_name}_analysis.txt"
```
-/

/-- Characters after the last separator; `posixpath.basename` keeps the
suffix of the string after the last slash. -/
def basenameAux (acc : List Char) : List Char → List Char
  | [] => acc
  | c :: cs => if c = '/' then basenameAux [] cs else basenameAux (acc ++ [c]) cs

/-- `os.path.basename`. -/
def osPathBasename (p : String) : String := String.mk (basenameAux [] p.data)

/-- Index of the last occurrence of `c`, if any. -/
def lastIndexOf (c : Char) : List Char → Option Nat
  | [] => none
  | x :: xs =>
    match lastIndexOf c xs with
    | some i => some (i + 1)
    | none => if x = c then some 0 else none

/-- Root component of `os.path.splitext` for a string without separators
(the source always applies it to a basename): split at the last dot,
except when every character before that dot is itself a dot (leading dots
are not extension separators in CPython). -/
def splitextRoot (p : String) : String :=
  match lastIndexOf '.' p.data with
  | none => p
  | some d =>
    if (p.data.take d).any (fun ch => ch ≠ '.') then String.mk (p.data.take d) else p

/-- `posixpath.join` for two components, as CPython implements it. -/
def osPathJoin (a b : String) : String :=
  if strStartsWithSlash b then b
  else if strIsEmpty a || strEndsWithSlash a then a ++ b
  else a ++ "/" ++ b

/-- The `base_file_name` variable of the source. -/
def baseFileName (fileName : String) : String := splitextRoot (osPathBasename fileName)

/-- Derived artifact locations, in source order: local video, local audio,
remote audio key, remote transcript key, remote analysis key. -/
structure ArtifactPaths where
  localVideoPath : String
  localAudioPath : String
  gcsAudioPath : String
  gcsTranscriptPath : String
  gcsAnalysisPath : String
deriving DecidableEq, Repr

/-- Path resolution exactly as lines 56-61 compute it (`TEMP_DIR = '/tmp'`). -/
def resolvePaths (fileName : String) : ArtifactPaths :=
  ⟨osPathJoin "/tmp" (osPathBasename fileName),
   osPathJoin "/tmp" (baseFileName fileName ++ ".flac"),
   "audio/" ++ baseFileName fileName ++ ".flac",
   "transcripts/" ++ baseFileName fileName ++ ".txt",
   "analysis/" ++ baseFileName fileName ++ "_analysis.txt"⟩

/-- Error alphabet the specification assigns to the path-resolution step. -/
inductive PathError where
  | validationError
deriving DecidableEq, Repr

/-- Fallible view of path resolution. The source computes the paths with
`os.path` calls that are total on strings, so the embedding never produces
an error value. -/
def resolvePathsE (fileName : String) : Except PathError ArtifactPaths :=
  Except.ok (resolvePaths fileName)

/-! ## Speech recognition data model -/

/-- A word with its diarization speaker tag (`word_info.word`,
`word_info.speaker_tag`). -/
structure WordInfo where
  word : String
  speaker_tag : Nat
deriving DecidableEq, Repr

/-- One alternative of a recognition result: a raw transcript and an
optional word-level breakdown. -/
structure SpeechAlternative where
  transcript : String
  words : List WordInfo
deriving DecidableEq, Repr

/-- One result group returned by the recognition service. -/
structure RecognitionResult where
  alternatives : List SpeechAlternative
deriving DecidableEq, Repr

/-- The top alternative `result.alternatives[0]`; only meaningful when the
alternatives list is non-empty (the source raises `IndexError` otherwise,
which the scan below models with `Option`). -/
def topAlt (r : RecognitionResult) : SpeechAlternative := r.alternatives.headD ⟨"", []⟩

/-! ## Transcript reconstruction (src/main.py lines 126-148) -/

/-- The mutable state of the scan: the accumulated `transcript_content`
string and the `speaker_transcripts` dict, modelled as an association list
in key-insertion order (Python dicts preserve insertion order). -/
structure ScanState where
  transcriptContent : String
  speakerTranscripts : List (Nat × List String)
deriving DecidableEq, Repr

/-- `speaker_transcripts.setdefault(tag, []).append(word)`: extend the
bucket for `tag`, creating it at the end on first sight. -/
def addWord : List (Nat × List String) → Nat → String → List (Nat × List String)
  | [], tag, w => [(tag, [w])]
  | (t, ws) :: rest, tag, w =>
    if t = tag then (t, ws ++ [w]) :: rest
    else (t, ws) :: addWord rest tag w

/-- One word of the inner `for word_info in result.alternatives[0].words` loop. -/
def stepW (m : List (Nat × List String)) (wi : WordInfo) : List (Nat × List String) :=
  addWord m wi.speaker_tag wi.word

/-- One iteration of the outer result loop (lines 128-139): buckets the
words of the top alternative when present, otherwise appends the raw
transcript plus newline to the accumulator. `none` models the `IndexError`
raised when a result has no alternatives. -/
def scanResult (st : ScanState) (r : RecognitionResult) : Option ScanState :=
  match r.alternatives with
  | [] => none
  | alt :: _ =>
    if alt.words.isEmpty then
      some ⟨st.transcriptContent ++ (alt.transcript ++ "\n"), st.speakerTranscripts⟩
    else
      some ⟨st.transcriptContent, alt.words.foldl stepW st.speakerTranscripts⟩

/-- The whole result loop. -/
def scanResults : List RecognitionResult → ScanState → Option ScanState
  | [], st => some st
  | r :: rest, st =>
    match scanResult st r with
    | none => none
    | some st2 => scanResults rest st2

/-- Lookup of a bucket by tag. -/
def lookupTag : List (Nat × List String) → Nat → Option (List String)
  | [], _ => none
  | (t, ws) :: rest, tag => if t = tag then some ws else lookupTag rest tag

/-- Bucket contents for a tag, empty when absent. -/
def lookupD (m : List (Nat × List String)) (t : Nat) : List String :=
  (lookupTag m t).getD []

/-- `sorted(speaker_transcripts.keys())`. -/
def sortedTags (m : List (Nat × List String)) : List Nat :=
  List.insertionSort (· ≤ ·) (m.map Prod.fst)

/-- One emitted line of the diarized branch (line 144). -/
def speakerLine (m : List (Nat × List String)) (t : Nat) : String :=
  "Speaker " ++ toString t ++ ": " ++ String.intercalate " " (lookupD m t) ++ "\n"

/-- The dead-in-practice fallback loop of lines 147-148, which re-reads the
top alternatives; `none` again models `IndexError`. -/
def fallbackLoop : List RecognitionResult → String → Option String
  | [], acc => some acc
  | r :: rest, acc =>
    match r.alternatives with
    | [] => none
    | alt :: _ => fallbackLoop rest (acc ++ (alt.transcript ++ "\n"))

/-- Final assembly (lines 141-148): if any buckets were populated, append
one `Speaker tag:` line per tag in ascending tag order to the accumulated
content; otherwise, when the accumulator is empty yet results exist, rerun
the raw-transcript loop; otherwise keep the accumulator. -/
def finishTranscript (rs : List RecognitionResult) (st : ScanState) : Option String :=
  if st.speakerTranscripts.isEmpty then
    if strIsEmpty st.transcriptContent && !rs.isEmpty then
      fallbackLoop rs st.transcriptContent
    else
      some st.transcriptContent
  else
    some ((sortedTags st.speakerTranscripts).foldl
      (fun acc t => acc ++ speakerLine st.speakerTranscripts t) st.transcriptContent)

/-- The transcript reconstruction of lines 126-148 as one function from the
recognition results to the final `transcript_content`. -/
def transcribeResults (rs : List RecognitionResult) : Option String :=
  match scanResults rs ⟨"", []⟩ with
  | none => none
  | some st => finishTranscript rs st

/-! ## Derived descriptions of the scan used in theorem statements -/

/-- All words of all top alternatives, in per-result, per-word scan order. -/
def allWords : List RecognitionResult → List WordInfo
  | [] => []
  | r :: rest => (topAlt r).words ++ allWords rest

/-- The text the fallback accumulator holds after the scan: the raw
transcript plus newline of every result whose top alternative has no words. -/
def fallbackText : List RecognitionResult → String
  | [] => ""
  | r :: rest =>
    (if (topAlt r).words.isEmpty then (topAlt r).transcript ++ "\n" else "") ++ fallbackText rest

/-- The words attributed to a speaker tag, in scan order. -/
def wordsFor (rs : List RecognitionResult) (t : Nat) : List String :=
  ((allWords rs).filter (fun wi => wi.speaker_tag == t)).map WordInfo.word

/-- The bucket map after scanning every word. -/
def finalBuckets (rs : List RecognitionResult) : List (Nat × List String) :=
  (allWords rs).foldl stepW []

/-- The tags of the emitted lines, in emission order. -/
def emittedTags (rs : List RecognitionResult) : List Nat :=
  sortedTags (finalBuckets rs)

/-- The emitted line for a tag, described independently of the bucket map. -/
def lineFor (rs : List RecognitionResult) (t : Nat) : String :=
  "Speaker " ++ toString t ++ ": " ++ String.intercalate " " (wordsFor rs t) ++ "\n"

/-! ## Logging around reconstruction (src/main.py lines 121-156)

Only the decisions are modelled: which log events are emitted, with which
severity, in which order. A `true` second component records that the code
raised (`IndexError` on a result with no alternatives) before finishing. -/

/-- Python logging severities used by the function. -/
inductive Severity where
  | info
  | warning
  | error
deriving DecidableEq, Repr

/-- Numeric severity level, ordered as in the logging module. -/
def sevRank : Severity → Nat
  | Severity.info => 0
  | Severity.warning => 1
  | Severity.error => 2

/-- One tag per distinct log statement in lines 121-156. -/
inductive LogTag where
  | noResults
  | resultsCount
  | processingResult
  | fallbackUsed
  | transcriptionComplete
  | contentLength
  | emptyTranscript
  | previewTranscript
deriving DecidableEq, Repr

/-- A log event: severity plus which statement fired. -/
structure LogEvent where
  sev : Severity
  tag : LogTag
deriving DecidableEq, Repr

/-- Lines 121-124: one warning when the result list is empty, otherwise an
info line with the count. -/
def headLogs (rs : List RecognitionResult) : List LogEvent :=
  if rs.isEmpty then [⟨Severity.warning, LogTag.noResults⟩]
  else [⟨Severity.info, LogTag.resultsCount⟩]

/-- Line 129: one info line per processed result; aborts on a result with
no alternatives. -/
def loopLogs : List RecognitionResult → List LogEvent × Bool
  | [] => ([], false)
  | r :: rest =>
    match r.alternatives with
    | [] => ([], true)
    | _ :: _ =>
      (⟨Severity.info, LogTag.processingResult⟩ :: (loopLogs rest).1, (loopLogs rest).2)

/-- Line 146: the warning of the raw-transcript fallback branch. -/
def fbLogs (rs : List RecognitionResult) (st : ScanState) : List LogEvent :=
  if st.speakerTranscripts.isEmpty && strIsEmpty st.transcriptContent && !rs.isEmpty then
    [⟨Severity.warning, LogTag.fallbackUsed⟩]
  else []

/-- Lines 151-156: completion and length info lines, then an error when the
final content is empty, otherwise a preview info line. -/
def tailLogs (rs : List RecognitionResult) (st : ScanState) : List LogEvent :=
  [⟨Severity.info, LogTag.transcriptionComplete⟩, ⟨Severity.info, LogTag.contentLength⟩] ++
    (if strIsEmpty ((finishTranscript rs st).getD "") then
      [⟨Severity.error, LogTag.emptyTranscript⟩]
    else [⟨Severity.info, LogTag.previewTranscript⟩])

/-- All log events of lines 121-156 in emission order, with the abort flag. -/
def transcribeLogs (rs : List RecognitionResult) : List LogEvent × Bool :=
  if (loopLogs rs).2 then (headLogs rs ++ (loopLogs rs).1, true)
  else
    match scanResults rs ⟨"", []⟩ with
    | none => (headLogs rs ++ (loopLogs rs).1, true)
    | some st => (headLogs rs ++ (loopLogs rs).1 ++ fbLogs rs st ++ tailLogs rs st, false)

/-- Whether some emitted event carries the given tag. -/
def hasTag (l : List LogEvent) (t : LogTag) : Bool :=
  l.any (fun e => e.tag == t)

/-- Every fallback-branch event is logged at warning severity. -/
def fallbackSevOk (l : List LogEvent) : Bool :=
  l.all (fun e => (e.tag != LogTag.fallbackUsed) || (e.sev == Severity.warning))

/-! ## Pipeline orchestrator (src/main.py lines 27-217)

The control flow is embedded as a pure function. External collaborators
(storage, ffmpeg, recognition, Gemini) are oracles in a `World` record that
fixes whether each call succeeds and what data it returns; the function
computes the outcome, the ordered list of external effects, and the final
scratch-file state. -/

/-- The triggering Cloud Storage event (`data['bucket']`, `data['name']`,
`data['contentType']`). -/
structure UploadEvent where
  bucket : String
  name : String
  contentType : String
deriving DecidableEq, Repr

/-- Environment-sourced configuration. `geminiApiKey` is `os.environ.get`,
hence optional. The bucket names have defaults in the source, so they are
plain strings. -/
structure RunConfig where
  inputVideoBucket : String
  transcriptionOutputBucket : String
  geminiApiKey : Option String
deriving DecidableEq, Repr

/-- Python truthiness of `os.environ.get('GEMINI_API_KEY')`: falsy when the
variable is absent or the empty string. -/
def truthy : Option String → Bool
  | none => false
  | some s => !strIsEmpty s

/-- Presence of the two scratch files in `/tmp`. -/
structure Scratch where
  video : Bool
  audio : Bool
deriving DecidableEq, Repr

/-- External calls the function can make, in the order the source makes
them, plus the cleanup actions of the `finally` block. -/
inductive Effect where
  | download
  | ffmpegRun
  | uploadAudio
  | recognize
  | uploadTranscript
  | geminiCall
  | uploadAnalysis
  | cleanup
  | removeVideo
  | removeAudio
deriving DecidableEq, Repr

/-- Stages whose failure aborts the run. `indexError` is the access
`result.alternatives[0]` on an empty alternatives list. -/
inductive Stage where
  | downloadFail
  | ffmpegFail
  | audioUploadFail
  | recognizeFail
  | indexError
  | transcriptUploadFail
  | geminiFail
  | analysisUploadFail
deriving DecidableEq, Repr

/-- How one invocation ends. -/
inductive Outcome where
  | validationError
  | skippedBucket
  | skippedContentType
  | failed (s : Stage)
  | completed (transcript analysis : String)
deriving DecidableEq, Repr

/-- Oracle for the external collaborators of one run. -/
structure World where
  downloadOk : Bool
  ffmpegOk : Bool
  audioUploadOk : Bool
  recognizeOk : Bool
  recognizeResults : List RecognitionResult
  transcriptUploadOk : Bool
  geminiOk : Bool
  geminiText : String
  analysisUploadOk : Bool
deriving DecidableEq, Repr

/-- Result of one invocation: outcome, ordered effects, final scratch state. -/
structure RunResult where
  outcome : Outcome
  effects : List Effect
  scratch : Scratch
deriving DecidableEq, Repr

/-- The `try` body (lines 63-202): download, ffmpeg, audio upload,
recognition, transcript reconstruction and upload, Gemini call, analysis
upload; the first failing stage aborts with the effects made so far and
the scratch files created so far. -/
def body (w : World) : RunResult :=
  if w.downloadOk = false then
    ⟨Outcome.failed Stage.downloadFail, [Effect.download], ⟨false, false⟩⟩
  else if w.ffmpegOk = false then
    ⟨Outcome.failed Stage.ffmpegFail, [Effect.download, Effect.ffmpegRun], ⟨true, false⟩⟩
  else if w.audioUploadOk = false then
    ⟨Outcome.failed Stage.audioUploadFail,
     [Effect.download, Effect.ffmpegRun, Effect.uploadAudio], ⟨true, true⟩⟩
  else if w.recognizeOk = false then
    ⟨Outcome.failed Stage.recognizeFail,
     [Effect.download, Effect.ffmpegRun, Effect.uploadAudio, Effect.recognize], ⟨true, true⟩⟩
  else
    match transcribeResults w.recognizeResults with
    | none =>
      ⟨Outcome.failed Stage.indexError,
       [Effect.download, Effect.ffmpegRun, Effect.uploadAudio, Effect.recognize], ⟨true, true⟩⟩
    | some t =>
      if w.transcriptUploadOk = false then
        ⟨Outcome.failed Stage.transcriptUploadFail,
         [Effect.download, Effect.ffmpegRun, Effect.uploadAudio, Effect.recognize,
          Effect.uploadTranscript], ⟨true, true⟩⟩
      else if w.geminiOk = false then
        ⟨Outcome.failed Stage.geminiFail,
         [Effect.download, Effect.ffmpegRun, Effect.uploadAudio, Effect.recognize,
          Effect.uploadTranscript, Effect.geminiCall], ⟨true, true⟩⟩
      else if w.analysisUploadOk = false then
        ⟨Outcome.failed Stage.analysisUploadFail,
         [Effect.download, Effect.ffmpegRun, Effect.uploadAudio, Effect.recognize,
          Effect.uploadTranscript, Effect.geminiCall, Effect.uploadAnalysis], ⟨true, true⟩⟩
      else
        ⟨Outcome.completed t w.geminiText,
         [Effect.download, Effect.ffmpegRun, Effect.uploadAudio, Effect.recognize,
          Effect.uploadTranscript, Effect.geminiCall, Effect.uploadAnalysis], ⟨true, true⟩⟩

/-- One invocation of `transcribe_video_from_gcs`: the eager credential
check (lines 41-43), the bucket filter (lines 46-48), the content-type
filter (lines 51-53), then the `try` body wrapped by the `finally` cleanup
(lines 210-217) which removes whichever scratch files exist. -/
def run (cfg : RunConfig) (ev : UploadEvent) (w : World) : RunResult :=
  if truthy cfg.geminiApiKey = false then
    ⟨Outcome.validationError, [], ⟨false, false⟩⟩
  else if (ev.bucket == cfg.inputVideoBucket) = false then
    ⟨Outcome.skippedBucket, [], ⟨false, false⟩⟩
  else if strStartsWith ev.contentType "video/" = false then
    ⟨Outcome.skippedContentType, [], ⟨false, false⟩⟩
  else
    ⟨(body w).outcome,
     (body w).effects ++ Effect.cleanup ::
       ((if (body w).scratch.video then [Effect.removeVideo] else []) ++
        (if (body w).scratch.audio then [Effect.removeAudio] else [])),
     ⟨false, false⟩⟩

/-! ## Concrete instances used by the theorems -/

/-- The two diarized result groups of the specification example. -/
def exC1 : List RecognitionResult :=
  [⟨[⟨"hello there", [⟨"hello", 1⟩, ⟨"there", 1⟩]⟩]⟩,
   ⟨[⟨"hi", [⟨"hi", 2⟩]⟩]⟩]

/-- A mixed input: one undiarized result feeding the fallback accumulator,
one diarized result feeding a bucket. -/
def exC2 : List RecognitionResult :=
  [⟨[⟨"hi there", []⟩]⟩, ⟨[⟨"hello", [⟨"hello", 1⟩]⟩]⟩]

/-- Two undiarized results with raw transcripts only. -/
def exC3 : List RecognitionResult :=
  [⟨[⟨"line one", []⟩]⟩, ⟨[⟨"line two", []⟩]⟩]

/-- A fully set configuration. -/
def cfgOk : RunConfig := ⟨"in", "out", some "key"⟩

/-- A configuration with the Gemini credential absent. -/
def cfgNoKey : RunConfig := ⟨"in", "out", none⟩

/-- A video upload event on the expected bucket. -/
def evVid : UploadEvent := ⟨"in", "clip1.mp4", "video/mp4"⟩

/-- A video upload event on an unexpected bucket. -/
def evWrongBucket : UploadEvent := ⟨"other", "clip1.mp4", "video/mp4"⟩

/-- A world where every collaborator call succeeds. -/
def wAllOk : World := ⟨true, true, true, true, exC1, true, true, "analysis text", true⟩

/-- A world where recognition succeeds but returns no results. -/
def wEmptyResults : World := ⟨true, true, true, true, [], true, true, "analysis text", true⟩

/-- A world where the ffmpeg subprocess fails. -/
def wFfmpegFail : World := ⟨true, false, true, true, [], true, true, "analysis text", true⟩

/-! ## Lemmas about the scan and the bucket map -/

theorem isEmpty_false_of_ne_nil {α : Type} {l : List α} (h : l ≠ []) : l.isEmpty = false := by
  cases l with
  | nil => exact absurd rfl h
  | cons a t => rfl

theorem topAlt_eq {r : RecognitionResult} {alt : SpeechAlternative}
    {tl : List SpeechAlternative} (h : r.alternatives = alt :: tl) : topAlt r = alt := by
  simp [topAlt, h]

/-- After scanning, the accumulator holds the initial content followed by
the fallback text, and the buckets are the fold of every scanned word. -/
theorem scanResults_spec (rs : List RecognitionResult) :
    ∀ st : ScanState, (∀ r ∈ rs, r.alternatives ≠ []) →
      scanResults rs st =
        some ⟨st.transcriptContent ++ fallbackText rs,
              (allWords rs).foldl stepW st.speakerTranscripts⟩ := by
  induction rs with
  | nil =>
    intro st _
    simp [scanResults, fallbackText, allWords, strAppend_empty]
  | cons r rest ih =>
    intro st h
    obtain ⟨alt, tl, halt⟩ : ∃ alt tl, r.alternatives = alt :: tl := by
      cases hr : r.alternatives with
      | nil => exact absurd hr (h r (by simp))
      | cons a t => exact ⟨a, t, rfl⟩
    have htop : topAlt r = alt := topAlt_eq halt
    have hrest : ∀ x ∈ rest, x.alternatives ≠ [] := fun x hx => h x (by simp [hx])
    cases hw : alt.words.isEmpty with
    | true =>
      have hwnil : alt.words = [] := by simpa using hw
      simp only [scanResults, scanResult, halt, hw, if_pos]
      rw [ih _ hrest]
      simp [fallbackText, allWords, htop, hwnil, strAppend_assoc]
    | false =>
      simp only [scanResults, scanResult, halt, hw, Bool.false_eq_true, if_false]
      rw [ih _ hrest]
      simp only [fallbackText, allWords, htop, hw, Bool.false_eq_true, if_false,
        strEmpty_append, List.foldl_append]

theorem addWord_ne_nil (m : List (Nat × List String)) (tag : Nat) (w : String) :
    addWord m tag w ≠ [] := by
  cases m with
  | nil => simp [addWord]
  | cons p rest =>
    obtain ⟨t, ws⟩ := p
    by_cases h : t = tag <;> simp [addWord, h]

theorem foldl_stepW_ne_nil (ws : List WordInfo) :
    ∀ m : List (Nat × List String), m ≠ [] → ws.foldl stepW m ≠ [] := by
  induction ws with
  | nil => intro m h; simpa using h
  | cons w rest ih =>
    intro m _
    simpa [List.foldl_cons] using ih (stepW m w) (addWord_ne_nil m w.speaker_tag w.word)

theorem finalBuckets_ne_nil (rs : List RecognitionResult) (h : allWords rs ≠ []) :
    finalBuckets rs ≠ [] := by
  unfold finalBuckets
  cases hw : allWords rs with
  | nil => exact absurd hw h
  | cons w ws =>
    simpa [List.foldl_cons] using
      foldl_stepW_ne_nil ws (stepW [] w) (addWord_ne_nil [] w.speaker_tag w.word)

theorem lookupD_addWord (m : List (Nat × List String)) (tag : Nat) (w : String) (t : Nat) :
    lookupD (addWord m tag w) t = lookupD m t ++ (if tag = t then [w] else []) := by
  induction m with
  | nil =>
    by_cases h : tag = t <;> simp [addWord, lookupD, lookupTag, h]
  | cons p rest ih =>
    obtain ⟨t1, ws⟩ := p
    by_cases h1 : t1 = tag
    · subst h1
      by_cases h2 : t1 = t <;> simp [addWord, lookupD, lookupTag, h2]
    · by_cases h2 : t1 = t
      · subst h2
        have : ¬tag = t1 := fun hc => h1 hc.symm
        simp [addWord, lookupD, lookupTag, h1, this]
      · simpa [addWord, lookupD, lookupTag, h1, h2] using ih

theorem lookupD_foldl (ws : List WordInfo) :
    ∀ (m : List (Nat × List String)) (t : Nat),
      lookupD (ws.foldl stepW m) t =
        lookupD m t ++ (ws.filter (fun wi => wi.speaker_tag == t)).map WordInfo.word := by
  induction ws with
  | nil => intro m t; simp
  | cons w rest ih =>
    intro m t
    simp only [List.foldl_cons, List.filter_cons]
    rw [ih, stepW, lookupD_addWord]
    by_cases h : w.speaker_tag = t <;> simp [h, List.append_assoc]

theorem keys_addWord (m : List (Nat × List String)) (tag : Nat) (w : String) :
    (addWord m tag w).map Prod.fst =
      if tag ∈ m.map Prod.fst then m.map Prod.fst else m.map Prod.fst ++ [tag] := by
  induction m with
  | nil => simp [addWord]
  | cons p rest ih =>
    obtain ⟨t1, ws⟩ := p
    by_cases h1 : t1 = tag
    · subst h1
      simp [addWord]
    · have hne : ¬tag = t1 := fun hc => h1 hc.symm
      by_cases h2 : tag ∈ rest.map Prod.fst <;>
        simp [addWord, h1, h2, hne, ih]

theorem mem_keys_addWord (m : List (Nat × List String)) (tag : Nat) (w : String) (t : Nat) :
    t ∈ (addWord m tag w).map Prod.fst ↔ t ∈ m.map Prod.fst ∨ t = tag := by
  rw [keys_addWord]
  by_cases h : tag ∈ m.map Prod.fst
  · simp only [h, if_pos]
    constructor
    · exact fun ht => Or.inl ht
    · rintro (ht | rfl)
      · exact ht
      · exact h
  · simp [h]

theorem mem_keys_foldl (ws : List WordInfo) :
    ∀ (m : List (Nat × List String)) (t : Nat),
      t ∈ (ws.foldl stepW m).map Prod.fst ↔
        t ∈ m.map Prod.fst ∨ t ∈ ws.map WordInfo.speaker_tag := by
  induction ws with
  | nil => intro m t; simp
  | cons w rest ih =>
    intro m t
    simp only [List.foldl_cons, List.map_cons, List.mem_cons]
    rw [ih, stepW, mem_keys_addWord]
    tauto

theorem nodup_keys_addWord (m : List (Nat × List String)) (tag : Nat) (w : String)
    (h : (m.map Prod.fst).Nodup) : ((addWord m tag w).map Prod.fst).Nodup := by
  rw [keys_addWord]
  by_cases hm : tag ∈ m.map Prod.fst
  · simpa [hm] using h
  · simp [hm, List.nodup_append, h]

theorem nodup_keys_foldl (ws : List WordInfo) :
    ∀ m : List (Nat × List String),
      (m.map Prod.fst).Nodup → ((ws.foldl stepW m).map Prod.fst).Nodup := by
  induction ws with
  | nil => intro m h; simpa using h
  | cons w rest ih =>
    intro m h
    simpa [List.foldl_cons] using ih (stepW m w) (nodup_keys_addWord m _ _ h)

theorem foldl_append_emit (m : List (Nat × List String)) (l : List Nat) :
    ∀ acc : String,
      l.foldl (fun a t => a ++ speakerLine m t) acc = acc ++ strConcat (l.map (speakerLine m)) := by
  induction l with
  | nil => intro acc; simp [strConcat, strAppend_empty]
  | cons x xs ih =>
    intro acc
    simp only [List.foldl_cons, List.map_cons, strConcat]
    rw [ih, strAppend_assoc]

theorem allWords_eq_nil (rs : List RecognitionResult)
    (h : ∀ r ∈ rs, (topAlt r).words = []) : allWords rs = [] := by
  induction rs with
  | nil => rfl
  | cons r rest ih =>
    simp [allWords, h r (by simp), ih (fun x hx => h x (by simp [hx]))]

theorem allWords_ne_nil (rs : List RecognitionResult)
    (h : ∃ r ∈ rs, (topAlt r).words ≠ []) : allWords rs ≠ [] := by
  induction rs with
  | nil => simp at h
  | cons r rest ih =>
    simp only [allWords, ne_eq, List.append_eq_nil]
    obtain ⟨x, hx, hw⟩ := h
    rcases List.mem_cons.mp hx with rfl | hx2
    · exact fun hc => hw hc.1
    · exact fun hc => ih ⟨x, hx2, hw⟩ hc.2

theorem fallbackText_eq_empty (rs : List RecognitionResult)
    (h : ∀ r ∈ rs, (topAlt r).words ≠ []) : fallbackText rs = "" := by
  induction rs with
  | nil => rfl
  | cons r rest ih =>
    have hw : (topAlt r).words.isEmpty = false :=
      isEmpty_false_of_ne_nil (h r (by simp))
    simp only [fallbackText, hw, Bool.false_eq_true, if_false, strEmpty_append]
    exact ih (fun x hx => h x (by simp [hx]))

theorem fallbackText_all_empty (rs : List RecognitionResult)
    (h : ∀ r ∈ rs, (topAlt r).words = []) :
    fallbackText rs = strConcat (rs.map (fun r => (topAlt r).transcript ++ "\n")) := by
  induction rs with
  | nil => rfl
  | cons r rest ih =>
    have hw : (topAlt r).words.isEmpty = true := by simp [h r (by simp)]
    simp only [fallbackText, hw, if_pos, List.map_cons, strConcat]
    rw [ih (fun x hx => h x (by simp [hx]))]

theorem strIsEmpty_fallbackText (rs : List RecognitionResult) (hne : rs ≠ [])
    (h : ∀ r ∈ rs, (topAlt r).words = []) : strIsEmpty (fallbackText rs) = false := by
  cases rs with
  | nil => exact absurd rfl hne
  | cons r rest =>
    have hw : (topAlt r).words.isEmpty = true := by simp [h r (by simp)]
    simp only [fallbackText, hw, if_pos, strIsEmpty, strData_append]
    have : ("\n" : String).data = ['\n'] := rfl
    simp [this]

/-- Master description of the reconstruction: when every result has a top
alternative and at least one word was bucketed, the output is the fallback
accumulator text followed by one `Speaker` line per tag in ascending tag
order, each carrying that tag's words in scan order. -/
theorem transcribe_master (rs : List RecognitionResult)
    (h1 : ∀ r ∈ rs, r.alternatives ≠ []) (h2 : allWords rs ≠ []) :
    transcribeResults rs =
      some (fallbackText rs ++ strConcat ((emittedTags rs).map (lineFor rs))) := by
  unfold transcribeResults
  rw [scanResults_spec rs ⟨"", []⟩ h1]
  unfold finishTranscript
  simp only
  have hbne : (allWords rs).foldl stepW ([] : List (Nat × List String)) ≠ [] :=
    finalBuckets_ne_nil rs h2
  rw [isEmpty_false_of_ne_nil hbne]
  simp only [Bool.false_eq_true, if_false]
  rw [foldl_append_emit, strEmpty_append]
  have hline : speakerLine ((allWords rs).foldl stepW []) = lineFor rs := by
    funext t
    unfold speakerLine lineFor
    rw [show lookupD ((allWords rs).foldl stepW []) t = wordsFor rs t from by
      unfold wordsFor
      rw [lookupD_foldl]
      simp [lookupD, lookupTag]]
  rw [hline]
  rfl

/-- Structure of the emitted tag list: sorted ascending, duplicate-free,
and carrying exactly the set of speaker tags that occur in the scan. -/
theorem emittedTags_spec (rs : List RecognitionResult) :
    (emittedTags rs).Sorted (· ≤ ·) ∧ (emittedTags rs).Nodup ∧
      (emittedTags rs).toFinset = ((allWords rs).map WordInfo.speaker_tag).toFinset := by
  refine ⟨List.sorted_insertionSort _ _, ?_, ?_⟩
  · have hperm := List.perm_insertionSort (· ≤ ·) ((finalBuckets rs).map Prod.fst)
    exact hperm.nodup_iff.mpr (nodup_keys_foldl _ _ (by simp))
  · ext t
    simp only [List.mem_toFinset, emittedTags, sortedTags,
      List.mem_insertionSort, finalBuckets]
    rw [mem_keys_foldl]
    simp

/-! ## Claim theorems: transcript reconstruction -/

/-- Claim C1: for every recognition result sequence in which every result's
top alternative carries word-level speaker tags, the emitted transcript is
exactly one line per distinct speaker tag, in ascending numeric tag order,
each line of the form `Speaker tag: ` followed by the space-joined words of
that tag in per-result, per-word scan order; and on the specification's
two-group example the transcript is the expected two-line document. -/
theorem transcript_allDiarized (rs : List RecognitionResult)
    (h : ∀ r ∈ rs, r.alternatives ≠ [] ∧ (topAlt r).words ≠ []) :
    transcribeResults rs = some (strConcat ((emittedTags rs).map (lineFor rs))) ∧
    (emittedTags rs).Sorted (· ≤ ·) ∧ (emittedTags rs).Nodup ∧
    (emittedTags rs).toFinset = ((allWords rs).map WordInfo.speaker_tag).toFinset ∧
    transcribeResults exC1 = some "Speaker 1: hello there\nSpeaker 2: hi\n" := by
  refine ⟨?_, (emittedTags_spec rs).1, (emittedTags_spec rs).2.1,
    (emittedTags_spec rs).2.2, by decide⟩
  cases rs with
  | nil => decide
  | cons r rest =>
    have h2 : allWords (r :: rest) ≠ [] :=
      allWords_ne_nil _ ⟨r, by simp, (h r (by simp)).2⟩
    rw [transcribe_master (r :: rest) (fun x hx => (h x hx).1) h2]
    rw [fallbackText_eq_empty _ (fun x hx => (h x hx).2), strEmpty_append]

/-- Witness for C1 at the specification example: two groups with words
tagged 1,1 and 2 produce the two sorted speaker lines. -/
theorem transcript_allDiarized_witness :
    transcribeResults exC1 = some "Speaker 1: hello there\nSpeaker 2: hi\n" ∧
    (emittedTags exC1).Sorted (· ≤ ·) ∧ (emittedTags exC1).Nodup ∧
    (emittedTags exC1).toFinset = ((allWords exC1).map WordInfo.speaker_tag).toFinset := by
  have h := transcript_allDiarized exC1 (by decide)
  exact ⟨h.2.2.2.2, h.2.1, h.2.2.1, h.2.2.2.1⟩

/-- Counterexample to claim C2 as stated: with one result feeding the
fallback accumulator the line `hi there` and another result feeding the
bucket of speaker 1, the emitted transcript retains the fallback text as a
prefix instead of consisting only of the per-speaker lines. -/
theorem fallback_discard_cex :
    transcribeResults exC2 = some "hi there\nSpeaker 1: hello\n" ∧
    transcribeResults exC2 ≠ some "Speaker 1: hello\n" ∧
    strIsEmpty (fallbackText exC2) = false ∧
    emittedTags exC2 = [1] := by decide

/-- Claim C2 (amended): when every result has a top alternative and at
least one result populates a speaker bucket, the emitted transcript is the
fallback accumulator's content followed by the per-speaker lines — the
fallback text is kept as a prefix, not discarded. -/
theorem transcript_mixed_keeps_fallback (rs : List RecognitionResult)
    (h1 : ∀ r ∈ rs, r.alternatives ≠ []) (h2 : ∃ r ∈ rs, (topAlt r).words ≠ []) :
    transcribeResults rs =
      some (fallbackText rs ++ strConcat ((emittedTags rs).map (lineFor rs))) :=
  transcribe_master rs h1 (allWords_ne_nil rs h2)

/-- Witness for the amended C2 at the mixed example. -/
theorem transcript_mixed_keeps_fallback_witness :
    transcribeResults exC2 =
      some (fallbackText exC2 ++ strConcat ((emittedTags exC2).map (lineFor exC2))) :=
  transcript_mixed_keeps_fallback exC2 (by decide) (by decide)

/-- Claim C3: for every non-empty result sequence in which no top
alternative carries words, the emitted transcript is the concatenation of
the per-result raw transcripts, each terminated by a newline, in original
order. -/
theorem transcript_noDiarization (rs : List RecognitionResult)
    (h1 : ∀ r ∈ rs, r.alternatives ≠ []) (h2 : ∀ r ∈ rs, (topAlt r).words = [])
    (h3 : rs ≠ []) :
    transcribeResults rs =
      some (strConcat (rs.map (fun r => (topAlt r).transcript ++ "\n"))) := by
  unfold transcribeResults
  rw [scanResults_spec rs ⟨"", []⟩ h1]
  have hw : allWords rs = [] := allWords_eq_nil rs h2
  unfold finishTranscript
  simp only [hw, List.foldl_nil, List.isEmpty_nil, if_pos, strEmpty_append]
  rw [strIsEmpty_fallbackText rs h3 h2]
  simp only [Bool.false_and, Bool.false_eq_true, if_false]
  rw [fallbackText_all_empty rs h2]

/-- Witness for C3 at a two-result undiarized input. -/
theorem transcript_noDiarization_witness :
    transcribeResults exC3 =
      some (strConcat (exC3.map (fun r => (topAlt r).transcript ++ "\n"))) :=
  transcript_noDiarization exC3 (by decide) (by decide) (by decide)

/-! ## Claim theorems: path resolution -/

theorem slash_not_mem_basenameAux (cs : List Char) :
    ∀ acc : List Char, '/' ∉ acc → '/' ∉ basenameAux acc cs := by
  induction cs with
  | nil => intro acc h; simpa [basenameAux] using h
  | cons c rest ih =>
    intro acc h
    by_cases hc : c = '/'
    · simpa [basenameAux, hc] using ih [] (by simp)
    · have hacc : '/' ∉ acc ++ [c] := by
        intro hm
        rcases List.mem_append.mp hm with h1 | h2
        · exact h h1
        · exact hc (Eq.symm (by simpa using h2))
      simpa [basenameAux, hc] using ih (acc ++ [c]) hacc

theorem slash_not_mem_basename (p : String) : '/' ∉ (osPathBasename p).data :=
  slash_not_mem_basenameAux p.data [] (by simp)

theorem slash_not_mem_splitextRoot (p : String) (h : '/' ∉ p.data) :
    '/' ∉ (splitextRoot p).data := by
  unfold splitextRoot
  cases lastIndexOf '.' p.data with
  | none => exact h
  | some d =>
    show '/' ∉ (if ((p.data.take d).any fun ch => decide (ch ≠ '.')) = true
        then String.mk (p.data.take d) else p).data
    by_cases ha : ((p.data.take d).any fun ch => decide (ch ≠ '.')) = true
    · rw [if_pos ha]
      intro hm
      exact h (List.take_subset d p.data hm)
    · rw [if_neg ha]
      exact h

theorem startsWithSlash_false_of_not_mem (s : String) (h : '/' ∉ s.data) :
    strStartsWithSlash s = false := by
  cases hd : s.data with
  | nil => simp [strStartsWithSlash, hd]
  | cons c rest =>
    have hc : c ≠ '/' := by
      intro hcc
      apply h
      rw [hd, hcc]
      simp
    simp [strStartsWithSlash, hd, hc]

theorem osPathJoin_tmp (b : String) (h : '/' ∉ b.data) :
    osPathJoin "/tmp" b = "/tmp/" ++ b := by
  unfold osPathJoin
  rw [startsWithSlash_false_of_not_mem b h]
  have h1 : strIsEmpty "/tmp" = false := rfl
  have h2 : strEndsWithSlash "/tmp" = false := rfl
  simp only [h1, h2, Bool.or_self, Bool.false_eq_true, if_false]
  rw [show ("/tmp" : String) ++ "/" = "/tmp/" from rfl]

theorem slash_not_mem_base_flac (name : String) (suf : String) (hs : '/' ∉ suf.data) :
    '/' ∉ (baseFileName name ++ suf).data := by
  rw [strData_append]
  intro hm
  rcases List.mem_append.mp hm with hm1 | hm2
  · exact slash_not_mem_splitextRoot _ (slash_not_mem_basename name) hm1
  · exact hs hm2

/-- Claim C6: the derived artifact paths strip any directory prefix and the
extension to a base identifier, place local files under `/tmp/` and remote
keys under `audio/`, `transcripts/` and `analysis/`; and the object names
`clip1.mp4` and `videos/clip1.mp4` both resolve to the specification's
example keys. -/
theorem resolvePaths_shape : ∀ name : String,
    (resolvePaths name).localVideoPath = "/tmp/" ++ osPathBasename name ∧
    (resolvePaths name).localAudioPath = "/tmp/" ++ (baseFileName name ++ ".flac") ∧
    (resolvePaths name).gcsAudioPath = "audio/" ++ baseFileName name ++ ".flac" ∧
    (resolvePaths name).gcsTranscriptPath = "transcripts/" ++ baseFileName name ++ ".txt" ∧
    (resolvePaths name).gcsAnalysisPath = "analysis/" ++ baseFileName name ++ "_analysis.txt" ∧
    resolvePaths "clip1.mp4" =
      ⟨"/tmp/clip1.mp4", "/tmp/clip1.flac", "audio/clip1.flac",
       "transcripts/clip1.txt", "analysis/clip1_analysis.txt"⟩ ∧
    resolvePaths "videos/clip1.mp4" =
      ⟨"/tmp/clip1.mp4", "/tmp/clip1.flac", "audio/clip1.flac",
       "transcripts/clip1.txt", "analysis/clip1_analysis.txt"⟩ := by
  intro name
  refine ⟨?_, ?_, rfl, rfl, rfl, by decide, by decide⟩
  · exact osPathJoin_tmp _ (slash_not_mem_basename name)
  · exact osPathJoin_tmp _ (slash_not_mem_base_flac name ".flac" (by decide))

/-- Counterexample to claim C7 as stated: the empty object name does not
signal a `ValidationError`; path resolution succeeds on it, producing the
degenerate artifact paths. -/
theorem resolve_empty_name_cex :
    resolvePathsE "" =
      Except.ok ⟨"/tmp/", "/tmp/.flac", "audio/.flac",
                 "transcripts/.txt", "analysis/_analysis.txt"⟩ ∧
    resolvePathsE "" ≠ Except.error PathError.validationError := by
  refine ⟨rfl, ?_⟩
  intro h
  exact Except.noConfusion h

/-- Claim C7 (amended): the path-resolution step is a pure function with no
side effects and no failure modes at all — it succeeds on every object
name, including empty or malformed ones, and never signals a
`ValidationError`. -/
theorem resolvePaths_total : ∀ name : String,
    resolvePathsE name = Except.ok (resolvePaths name) ∧
    resolvePathsE name ≠ Except.error PathError.validationError := by
  intro name
  exact ⟨rfl, fun h => Except.noConfusion h⟩

/-- Witness for the amended C7 at a concrete name. -/
theorem resolvePaths_total_witness :
    resolvePathsE "clip1.mp4" = Except.ok (resolvePaths "clip1.mp4") ∧
    resolvePathsE "clip1.mp4" ≠ Except.error PathError.validationError :=
  resolvePaths_total "clip1.mp4"

/-! ## Claim theorems: orchestrator validation, filters, cleanup -/

/-- Claim C4: whenever the Gemini credential is absent or empty (Python
falsy), the invocation ends with the fatal validation error before any
external call and before any pipeline stage: the effect trace is empty and
no scratch file is ever created. -/
theorem missing_key_aborts (cfg : RunConfig) (ev : UploadEvent) (w : World)
    (h : truthy cfg.geminiApiKey = false) :
    run cfg ev w = ⟨Outcome.validationError, [], ⟨false, false⟩⟩ := by
  simp [run, h]

/-- Witness for C4: with the credential unset, even a fully cooperative
world sees no download, transcode, upload, recognition or LLM call. -/
theorem missing_key_aborts_witness :
    truthy cfgNoKey.geminiApiKey = false ∧
    run cfgNoKey evVid wAllOk = ⟨Outcome.validationError, [], ⟨false, false⟩⟩ :=
  ⟨rfl, missing_key_aborts cfgNoKey evVid wAllOk rfl⟩

/-- Claim C5: with the credential present, an event from an unexpected
bucket or with a non-video content-type ends the run early as a skip: no
effects at all (hence zero storage writes and zero transcoder, recognition
or LLM calls) and a skip outcome rather than an error. -/
theorem filters_skip (cfg : RunConfig) (ev : UploadEvent) (w : World)
    (hk : truthy cfg.geminiApiKey = true)
    (h : (ev.bucket == cfg.inputVideoBucket) = false ∨
         strStartsWith ev.contentType "video/" = false) :
    (run cfg ev w).effects = [] ∧
    ((run cfg ev w).outcome = Outcome.skippedBucket ∨
     (run cfg ev w).outcome = Outcome.skippedContentType) := by
  unfold run
  rw [hk]
  cases hb : (ev.bucket == cfg.inputVideoBucket) with
  | false => simp
  | true =>
    rcases h with hbad | hct
    · rw [hb] at hbad
      exact absurd hbad (by simp)
    · simp [hct]

/-- Witness for C5: wrong-bucket event with the credential set skips with
an empty effect trace. -/
theorem filters_skip_witness :
    (run cfgOk evWrongBucket wAllOk).effects = [] ∧
    ((run cfgOk evWrongBucket wAllOk).outcome = Outcome.skippedBucket ∨
     (run cfgOk evWrongBucket wAllOk).outcome = Outcome.skippedContentType) :=
  filters_skip cfgOk evWrongBucket wAllOk rfl (Or.inl (by decide))

theorem body_count_cleanup (w : World) : (body w).effects.count Effect.cleanup = 0 := by
  unfold body
  by_cases h1 : w.downloadOk = false
  · simp [h1]
  · by_cases h2 : w.ffmpegOk = false
    · simp [h1, h2]
    · by_cases h3 : w.audioUploadOk = false
      · simp [h1, h2, h3]
      · by_cases h4 : w.recognizeOk = false
        · simp [h1, h2, h3, h4]
        · cases h5 : transcribeResults w.recognizeResults with
          | none => simp [h1, h2, h3, h4, h5]
          | some t =>
            by_cases h6 : w.transcriptUploadOk = false
            · simp [h1, h2, h3, h4, h5, h6]
            · by_cases h7 : w.geminiOk = false
              · simp [h1, h2, h3, h4, h5, h6, h7]
              · by_cases h8 : w.analysisUploadOk = false
                · simp [h1, h2, h3, h4, h5, h6, h7, h8]
                · simp [h1, h2, h3, h4, h5, h6, h7, h8]

/-- Claim C8: whenever an invocation passes the credential check and both
filters (so the try body runs), the cleanup step runs exactly once on every
exit path — success or failure at any stage — and afterwards neither the
local video nor the local audio scratch file remains. -/
theorem cleanup_always (cfg : RunConfig) (ev : UploadEvent) (w : World)
    (hk : truthy cfg.geminiApiKey = true)
    (hb : (ev.bucket == cfg.inputVideoBucket) = true)
    (hv : strStartsWith ev.contentType "video/" = true) :
    (run cfg ev w).effects.count Effect.cleanup = 1 ∧
    (run cfg ev w).scratch = ⟨false, false⟩ := by
  unfold run
  rw [hk, hb, hv]
  constructor
  · simp only [Bool.true_eq_false, if_false]
    have hv2 : ∀ b : Bool,
        (if b then [Effect.removeVideo] else []).count Effect.cleanup = 0 := by
      intro b; cases b <;> rfl
    have ha2 : ∀ b : Bool,
        (if b then [Effect.removeAudio] else []).count Effect.cleanup = 0 := by
      intro b; cases b <;> rfl
    simp [List.count_append, List.count_cons, body_count_cleanup, hv2, ha2]
  · rfl

/-- Witness for C8 on a failing path: the ffmpeg stage fails, yet cleanup
runs once and no scratch file survives. -/
theorem cleanup_always_witness :
    (run cfgOk evVid wFfmpegFail).effects.count Effect.cleanup = 1 ∧
    (run cfgOk evVid wFfmpegFail).scratch = ⟨false, false⟩ :=
  cleanup_always cfgOk evVid wFfmpegFail rfl (by decide) (by decide)

/-- Claim C10: the credential check precedes the bucket and content-type
filters: an event that would be skipped (wrong bucket or non-video
content-type) still raises the fatal validation error when the credential
is absent, instead of ending as a silent skip. -/
theorem key_check_precedes_filters (cfg : RunConfig) (ev : UploadEvent) (w : World)
    (hk : truthy cfg.geminiApiKey = false)
    (h : (ev.bucket == cfg.inputVideoBucket) = false ∨
         strStartsWith ev.contentType "video/" = false) :
    (run cfg ev w).outcome = Outcome.validationError ∧
    (run cfg ev w).outcome ≠ Outcome.skippedBucket ∧
    (run cfg ev w).outcome ≠ Outcome.skippedContentType := by
  have hr : run cfg ev w = ⟨Outcome.validationError, [], ⟨false, false⟩⟩ := by
    simp [run, hk]
  rw [hr]
  exact ⟨rfl, fun hc => Outcome.noConfusion hc, fun hc => Outcome.noConfusion hc⟩

/-- Witness for C10: absent credential plus wrong bucket raises the
validation error rather than skipping. -/
theorem key_check_precedes_filters_witness :
    (run cfgNoKey evWrongBucket wAllOk).outcome = Outcome.validationError ∧
    (run cfgNoKey evWrongBucket wAllOk).outcome ≠ Outcome.skippedBucket ∧
    (run cfgNoKey evWrongBucket wAllOk).outcome ≠ Outcome.skippedContentType :=
  key_check_precedes_filters cfgNoKey evWrongBucket wAllOk rfl (Or.inl (by decide))

/-! ## Claim theorems: empty recognition results and logging -/

theorem loopLogs_mem (rs : List RecognitionResult) :
    ∀ e ∈ (loopLogs rs).1, e = ⟨Severity.info, LogTag.processingResult⟩ := by
  induction rs with
  | nil => intro e he; simp [loopLogs] at he
  | cons r rest ih =>
    intro e he
    cases halt : r.alternatives with
    | nil => simp [loopLogs, halt] at he
    | cons a tl =>
      simp only [loopLogs, halt] at he
      rcases List.mem_cons.mp he with rfl | h2
      · rfl
      · exact ih e h2

theorem fbLogs_mem (rs : List RecognitionResult) (st : ScanState) :
    ∀ e ∈ fbLogs rs st, e = ⟨Severity.warning, LogTag.fallbackUsed⟩ := by
  intro e he
  unfold fbLogs at he
  split at he
  · simpa using he
  · simp at he

theorem tailLogs_mem (rs : List RecognitionResult) (st : ScanState) :
    ∀ e ∈ tailLogs rs st,
      e = ⟨Severity.info, LogTag.transcriptionComplete⟩ ∨
      e = ⟨Severity.info, LogTag.contentLength⟩ ∨
      e = ⟨Severity.error, LogTag.emptyTranscript⟩ ∨
      e = ⟨Severity.info, LogTag.previewTranscript⟩ := by
  intro e he
  unfold tailLogs at he
  split at he <;> simp at he <;> tauto

/-- Every event of the reconstruction log comes from one of the four
statement groups. -/
theorem transcribeLogs_mem (rs : List RecognitionResult) (e : LogEvent)
    (he : e ∈ (transcribeLogs rs).1) :
    e ∈ headLogs rs ∨ e = ⟨Severity.info, LogTag.processingResult⟩ ∨
    e = ⟨Severity.warning, LogTag.fallbackUsed⟩ ∨
    e = ⟨Severity.info, LogTag.transcriptionComplete⟩ ∨
    e = ⟨Severity.info, LogTag.contentLength⟩ ∨
    e = ⟨Severity.error, LogTag.emptyTranscript⟩ ∨
    e = ⟨Severity.info, LogTag.previewTranscript⟩ := by
  unfold transcribeLogs at he
  split at he
  · rcases List.mem_append.mp he with h1 | h2
    · exact Or.inl h1
    · exact Or.inr (Or.inl (loopLogs_mem rs e h2))
  · split at he
    · rcases List.mem_append.mp he with h1 | h2
      · exact Or.inl h1
      · exact Or.inr (Or.inl (loopLogs_mem rs e h2))
    · simp only [List.mem_append] at he
      rcases he with ((h1 | h2) | h3) | h4
      · exact Or.inl h1
      · exact Or.inr (Or.inl (loopLogs_mem rs e h2))
      · exact Or.inr (Or.inr (Or.inl (fbLogs_mem _ _ e h3)))
      · rcases tailLogs_mem _ _ e h4 with h | h | h | h <;> simp [h]

/-- The `no results` warning fires exactly on the empty result sequence. -/
theorem hasTag_noResults (rs : List RecognitionResult) :
    hasTag (transcribeLogs rs).1 LogTag.noResults = rs.isEmpty := by
  cases rs with
  | nil => decide
  | cons r rest =>
    show hasTag (transcribeLogs (r :: rest)).1 LogTag.noResults = false
    cases hh : hasTag (transcribeLogs (r :: rest)).1 LogTag.noResults with
    | false => rfl
    | true =>
      exfalso
      unfold hasTag at hh
      obtain ⟨e, he, hbe⟩ := List.any_eq_true.mp hh
      have htag : e.tag = LogTag.noResults := by simpa using hbe
      rcases transcribeLogs_mem _ e he with h1 | h2 | h3 | h4 | h5 | h6 | h7
      · have : e = ⟨Severity.info, LogTag.resultsCount⟩ := by
          simpa [headLogs] using h1
        rw [this] at htag
        exact LogTag.noConfusion htag
      · rw [h2] at htag; exact LogTag.noConfusion htag
      · rw [h3] at htag; exact LogTag.noConfusion htag
      · rw [h4] at htag; exact LogTag.noConfusion htag
      · rw [h5] at htag; exact LogTag.noConfusion htag
      · rw [h6] at htag; exact LogTag.noConfusion htag
      · rw [h7] at htag; exact LogTag.noConfusion htag

/-- Whatever the input, the fallback-branch statement only ever logs at
warning severity. -/
theorem fallbackSevOk_transcribeLogs (rs : List RecognitionResult) :
    fallbackSevOk (transcribeLogs rs).1 = true := by
  unfold fallbackSevOk
  rw [List.all_eq_true]
  intro e he
  rcases transcribeLogs_mem rs e he with h1 | h2 | h3 | h4 | h5 | h6 | h7
  · unfold headLogs at h1
    split at h1 <;> simp_all
  · simp [h2]
  · simp [h3]
  · simp [h4]
  · simp [h5]
  · simp [h6]
  · simp [h7]

/-- Claim C9: the empty recognition result sequence yields the empty
transcript document without aborting; the distinct `no results` condition
is logged, and fires only on empty inputs; the empty-results run carries an
error-severity log event while the fallback condition only ever logs at
warning severity, which ranks strictly below error; and a full pipeline run
whose recognition returns no results still completes, uploading the empty
transcript. -/
theorem emptyResults_empty_transcript :
    transcribeResults ([] : List RecognitionResult) = some "" ∧
    transcribeLogs ([] : List RecognitionResult) =
      ([⟨Severity.warning, LogTag.noResults⟩, ⟨Severity.info, LogTag.transcriptionComplete⟩,
        ⟨Severity.info, LogTag.contentLength⟩, ⟨Severity.error, LogTag.emptyTranscript⟩],
       false) ∧
    (∀ rs : List RecognitionResult,
      hasTag (transcribeLogs rs).1 LogTag.noResults = rs.isEmpty) ∧
    (∀ rs : List RecognitionResult, fallbackSevOk (transcribeLogs rs).1 = true) ∧
    sevRank Severity.warning < sevRank Severity.error ∧
    (run cfgOk evVid wEmptyResults).outcome = Outcome.completed "" "analysis text" := by
  refine ⟨by decide, by decide, hasTag_noResults, fallbackSevOk_transcribeLogs,
    by decide, by decide⟩
